import Mathlib

/-!
Verification development for the `web-research-agent` repository.

The embedding models, from the Python sources:
  * `src/src/base_agent.py`   — `BaseAgent.execute_tool` and the history ledger;
  * `src/src/simple_research_agent.py` — `SimpleResearchAgent.research` and
    `_create_simple_summary`;
  * `src/src/tools.py`        — `fetch_webpage`, `extract_text` (its
    whitespace-cleanup stage), `extract_links`, `search_web`.

Python dictionaries, lists and strings that flow between the agent and its
tools are modelled by the `Value` type; a Python expression that can raise
is modelled as an `Option`-valued computation (`none` = the exception
propagates).  Network I/O and the HTML parser are external collaborators:
they enter as oracle parameters (tool callables, a `SearchWorld`,
a `FetchOutcome`, a `soup` text-extraction function, a `urljoin` function).
-/

/-! ### Python expression semantics used by `research` -/

/-! ### `fetch_webpage` (`tools.py` lines 17-87) -/

/-! ### `SimpleResearchAgent.research` (`simple_research_agent.py` 47-137)
and `_create_simple_summary` (139-167) -/

/-! Concrete scenario: two valid search results, the fetch of the first
fails (timeout), the fetch of the second succeeds. -/

/-! ### `search_web` (`tools.py` lines 193-288) -/

/-! ### `extract_links` (`tools.py` lines 138-190) -/

/-! ### `extract_text` (`tools.py` lines 90-135) -/

/-! Strip toolkit. -/

/-! `noDoubleSpace` toolkit. -/

/-! `splitTwo` toolkit. -/
/-! `splitLinesCore` toolkit. -/

/-! Final assembly for `extract_text` idempotence. -/

/-- A single-quote character, used in several message strings of the source. -/
def apos : String := String.singleton (Char.ofNat 39)

/-- Python-like runtime values exchanged between the agent and its tools. -/
inductive Value where
  | none : Value
  | bool : Bool → Value
  | nat  : Nat → Value
  | str  : String → Value
  | list : List Value → Value
  | dict : List (String × Value) → Value

/-- Outcome of invoking a registered tool callable: a normal return value, or
a raised exception carrying its message (`str(e)`). -/
inductive ToolBehavior where
  | ret (v : Value)
  | exn (msg : String)

/-- Keyword arguments of a tool call (`**kwargs`). -/
abbrev Args := List (String × Value)

/-- A registered tool callable. -/
abbrev Tool := Args → ToolBehavior

/-- One entry of the history ledger (`base_agent.py` lines 66-70):
`{'tool': tool_name, 'args': kwargs, 'result': result}`. -/
structure ExecRecord where
  tool : String
  args : Args
  result : Value

/-- The `BaseAgent` state: the tool registry `self.tools` and the ledger
`self.history`. -/
structure AgentState where
  tools : List (String × Tool)
  history : List ExecRecord

/-- Model of `BaseAgent.execute_tool` (`base_agent.py` lines 46-77).  Returns the
value the Python method returns together with the updated agent state. -/
def execute_tool (st : AgentState) (tool_name : String) (kwargs : Args) :
    Value × AgentState :=
  match st.tools.lookup tool_name with
  | Option.none =>
      (Value.dict [("success", Value.bool false),
        ("error", Value.str ("Tool " ++ apos ++ tool_name ++ apos ++ " not found"))], st)
  | Option.some f =>
      match f kwargs with
      | ToolBehavior.ret result =>
          (result, { st with history := st.history ++ [⟨tool_name, kwargs, result⟩] })
      | ToolBehavior.exn e =>
          (Value.dict [("success", Value.bool false),
            ("error", Value.str ("Tool failed: " ++ e))], st)

/-- Model of `BaseAgent.reset` (`base_agent.py` lines 83-86). -/
def resetAgent (st : AgentState) : AgentState :=
  { st with history := [] }

/-- Witness for C1: a registry with one tool returning the number 7. -/
def toolSeven : Tool := fun _ => ToolBehavior.ret (Value.nat 7)

/-- Witness agent for C1/C2: one tool named `"t"`, empty history. -/
def stOne : AgentState := ⟨[("t", toolSeven)], []⟩

/-- Witness tool for C2's raising path. -/
def toolBoom : Tool := fun _ => ToolBehavior.exn "boom"

/-- Witness agent for C2's raising path. -/
def stBoom : AgentState := ⟨[("b", toolBoom)], []⟩

/-- Python truthiness of a `Value` (`if not x`). -/
def pyTruthy : Value → Bool
  | Value.none => false
  | Value.bool b => b
  | Value.nat n => !(n == 0)
  | Value.str s => !(s == "")
  | Value.list xs => !xs.isEmpty
  | Value.dict kvs => !kvs.isEmpty

/-- Python subscript `v[k]`; `none` models a raised
`IndexError`/`KeyError`/`TypeError`. -/
def pySubscript : Value → Value → Option Value
  | Value.list xs, Value.nat i => xs[i]?
  | Value.str s, Value.nat i => (s.data[i]?).map (fun c => Value.str (String.mk [c]))
  | Value.dict kvs, Value.str k => kvs.lookup k
  | _, _ => Option.none

/-- Python `v.get(k)` on a dictionary (default `None`); `none` models the
`AttributeError` raised when `v` is not a dictionary. -/
def pyDictGet : Value → String → Option Value
  | Value.dict kvs, k => some ((kvs.lookup k).getD Value.none)
  | _, _ => Option.none

/-- Python `v.get(k, d)` on a dictionary with an explicit default. -/
def pyDictGetD : Value → String → Value → Option Value
  | Value.dict kvs, k, d => some ((kvs.lookup k).getD d)
  | _, _, _ => Option.none

/-- Python `len(v)`; `none` models the `TypeError` on unsized values. -/
def pyLen : Value → Option Nat
  | Value.str s => some s.length
  | Value.list xs => some xs.length
  | Value.dict kvs => some kvs.length
  | _ => Option.none

/-- Python slice `v[:n]` for `n ≥ 0`; `none` models the `TypeError` on
unsliceable values. -/
def pySliceTake : Value → Nat → Option Value
  | Value.str s, n => some (Value.str (String.mk (s.data.take n)))
  | Value.list xs, n => some (Value.list (xs.take n))
  | _, _ => Option.none

/-- Python `a + b` for the value kinds that occur here; `none` models the
`TypeError` on mixed operands. -/
def pyAdd : Value → Value → Option Value
  | Value.str a, Value.str b => some (Value.str (a ++ b))
  | Value.list a, Value.list b => some (Value.list (a ++ b))
  | _, _ => Option.none

/-- Python `v == "<s>"` for a string literal on the right. -/
def pyEqStr (v : Value) (s : String) : Bool :=
  match v with
  | Value.str t => t == s
  | _ => false

/-- The outside world's answer to the one HTTP GET issued by
`fetch_webpage`: a 2xx response body, a timeout, or another request error. -/
inductive FetchOutcome where
  | ok (body : String) (code : Nat)
  | timeout
  | reqError (msg : String)

/-- Model of `fetch_webpage(url, timeout)` over a `FetchOutcome` oracle. -/
def fetch_webpage (_url : String) (timeout : Nat) (w : FetchOutcome) : Value :=
  match w with
  | FetchOutcome.ok body code =>
      Value.dict [("success", Value.bool true), ("content", Value.str body),
        ("status_code", Value.nat code), ("error", Value.none)]
  | FetchOutcome.timeout =>
      Value.dict [("success", Value.bool false), ("content", Value.none),
        ("status_code", Value.none),
        ("error", Value.str ("Timeout: Website did not respond within " ++
          toString timeout ++ " seconds"))]
  | FetchOutcome.reqError m =>
      Value.dict [("success", Value.bool false), ("content", Value.none),
        ("status_code", Value.none),
        ("error", Value.str ("Request failed: " ++ m))]

/-- Model of the preview expression of `simple_research_agent.py` line 107,
namely the text truncated to 500 characters with an ellipsis when longer. -/
def computePreview (text : Value) : Option Value := do
  let n ← pyLen text
  if n > 500 then
    let sliced ← pySliceTake text 500
    pyAdd sliced (Value.str "...")
  else
    pure text

mutual

/-- Python `repr` restricted to the `Value` universe (escape sequences inside
string literals are not modelled; no claim evaluates them). -/
def pyRepr : Value → String
  | Value.none => "None"
  | Value.bool b => if b then "True" else "False"
  | Value.nat n => toString n
  | Value.str s => apos ++ s ++ apos
  | Value.list xs => "[" ++ pyReprList xs ++ "]"
  | Value.dict kvs => "\x7b" ++ pyReprDict kvs ++ "\x7d"

/-- Python repr of list elements, comma separated. -/
def pyReprList : List Value → String
  | [] => ""
  | [x] => pyRepr x
  | x :: xs => pyRepr x ++ ", " ++ pyReprList xs

/-- Python repr of dictionary items, comma separated. -/
def pyReprDict : List (String × Value) → String
  | [] => ""
  | [kv] => apos ++ kv.1 ++ apos ++ ": " ++ pyRepr kv.2
  | kv :: kvs => apos ++ kv.1 ++ apos ++ ": " ++ pyRepr kv.2 ++ ", " ++ pyReprDict kvs

end

/-- Python `str(v)`, as used by f-string interpolation. -/
def pyStr : Value → String
  | Value.str s => s
  | v => pyRepr v

/-- The three f-string lines `_create_simple_summary` appends per finding
(`simple_research_agent.py` lines 159-162); `none` models the `KeyError` on a
malformed finding. -/
def summaryParts : Nat → List Value → Option (List String)
  | _, [] => some []
  | i, f :: rest =>
    match pySubscript f (Value.str "source"), pySubscript f (Value.str "url"),
          pySubscript f (Value.str "preview") with
    | some src, some url, some prev =>
      (summaryParts (i + 1) rest).map (fun tail =>
        ("\n" ++ toString i ++ ". " ++ pyStr src) ::
        ("   URL: " ++ pyStr url) ::
        ("   Preview: " ++ pyStr prev ++ "\n") :: tail)
    | _, _, _ => Option.none

/-- Model of `SimpleResearchAgent._create_simple_summary(question, findings)`. -/
def create_simple_summary (question : String) (findings : List Value) :
    Option String :=
  if findings.isEmpty then some "No information found."
  else
    (summaryParts 1 findings).map (fun parts =>
      String.intercalate "\n"
        (("Research Results for: " ++ apos ++ question ++ apos) ::
         ("\nFound " ++ toString findings.length ++ " source(s):\n") ::
         (parts ++
          [("\nNote: This is raw information from " ++
              toString findings.length ++ " source(s)."),
           "For true understanding and synthesis, consider using AI (Claude)."])))

/-- The dictionary `research` returns (`simple_research_agent.py` 132-137). -/
structure ResearchOutput where
  question : String
  sources : List Value
  findings : List Value
  summary : String

/-- The fetch-and-extract loop of `research`
(`simple_research_agent.py` lines 88-122), with the `sources` and `findings`
accumulators passed explicitly; `none` models an uncaught exception. -/
def researchLoop (st : AgentState) (results : List Value)
    (sources findings : List Value) :
    Option (List Value × List Value × AgentState) :=
  match results with
  | [] => some (sources, findings, st)
  | result :: rest =>
    match pySubscript result (Value.str "url") with
    | Option.none => Option.none
    | some url =>
      match pySubscript result (Value.str "title") with
      | Option.none => Option.none
      | some title =>
        let pr := execute_tool st "fetch" [("url", url)]
        match pyDictGet pr.1 "success" with
        | Option.none => Option.none
        | some succ =>
          if !pyTruthy succ then
            researchLoop pr.2 rest sources findings
          else
            match pySubscript pr.1 (Value.str "content") with
            | Option.none => Option.none
            | some content =>
              let tr := execute_tool pr.2 "extract_text" [("html", content)]
              match computePreview tr.1 with
              | Option.none => Option.none
              | some preview =>
                match pyDictGetD result "snippet" (Value.str "") with
                | Option.none => Option.none
                | some snippet =>
                  researchLoop tr.2 rest
                    (sources ++ [Value.dict [("title", title), ("url", url),
                      ("snippet", snippet)]])
                    (findings ++ [Value.dict [("source", title), ("url", url),
                      ("text", tr.1), ("preview", preview)]])

/-- Model of `SimpleResearchAgent.research(question, num_sources)`; `none` is an
uncaught exception escaping the method. -/
def research (st : AgentState) (question : String) (num_sources : Nat) :
    Option (ResearchOutput × AgentState) :=
  let sr := execute_tool st "search"
      [("query", Value.str question), ("num_results", Value.nat num_sources)]
  if !pyTruthy sr.1 then
    some ({question := question, sources := [], findings := [],
           summary := "No results found"}, sr.2)
  else
    match pySubscript sr.1 (Value.nat 0) with
    | Option.none => Option.none
    | some first =>
      match pyDictGet first "url" with
      | Option.none => Option.none
      | some url0 =>
        if pyEqStr url0 "" then
          some ({question := question, sources := [], findings := [],
                 summary := "No results found"}, sr.2)
        else
          match pySliceTake sr.1 num_sources with
          | Option.none => Option.none
          | some (Value.list rs) =>
            match researchLoop sr.2 rs [] [] with
            | Option.none => Option.none
            | some (ss, fs, st2) =>
              match create_simple_summary question fs with
              | Option.none => Option.none
              | some summary =>
                some ({question := question, sources := ss, findings := fs,
                       summary := summary}, st2)
          | some _ => Option.none

/-- The preview expression of `simple_research_agent.py` line 107 specialised to an
actual string, as produced by the `extract_text` tool. -/
def previewStr (s : String) : String :=
  if 500 < s.length then String.mk (s.data.take 500) ++ "..." else s

/-- The `sources`/`findings` entries produced by one loop iteration of
`research` describe the same search result: same title and same url. -/
def SameSource (sv fv : Value) : Prop :=
  ∃ t u sn txt pv,
    sv = Value.dict [("title", t), ("url", u), ("snippet", sn)] ∧
    fv = Value.dict [("source", t), ("url", u), ("text", txt), ("preview", pv)]

/-- A finding whose `text` is a string and whose `preview` was computed from
it by the truncation rule of `research`. -/
def GoodFinding (fv : Value) : Prop :=
  ∃ t u s, fv = Value.dict [("source", t), ("url", u), ("text", Value.str s),
    ("preview", Value.str (previewStr s))]

/-- First scenario search result. -/
def resClash1 : Value :=
  Value.dict [("title", Value.str "A"), ("url", Value.str "http://a"),
    ("snippet", Value.str "sa")]

/-- Second scenario search result. -/
def resClash2 : Value :=
  Value.dict [("title", Value.str "B"), ("url", Value.str "http://b"),
    ("snippet", Value.str "sb")]

/-- Scenario search tool: returns the two results. -/
def searchScen : Tool := fun _ => ToolBehavior.ret (Value.list [resClash1, resClash2])

/-- Scenario fetch tool: times out on `http://a`, succeeds on anything else. -/
def fetchScen : Tool := fun a =>
  match a with
  | [("url", Value.str "http://a")] =>
      ToolBehavior.ret (fetch_webpage "http://a" 10 FetchOutcome.timeout)
  | _ => ToolBehavior.ret (fetch_webpage "http://b" 10 (FetchOutcome.ok "<p>second</p>" 200))

/-- Scenario extract tool: returns a fixed clean text. -/
def extractScen : Tool := fun _ => ToolBehavior.ret (Value.str "Second page text")

/-- Scenario agent. -/
def stScen : AgentState :=
  ⟨[("search", searchScen), ("fetch", fetchScen), ("extract_text", extractScen)], []⟩

/-- The single `sources` entry the scenario produces (second result only). -/
def srcScen2 : Value :=
  Value.dict [("title", Value.str "B"), ("url", Value.str "http://b"),
    ("snippet", Value.str "sb")]

/-- The single `findings` entry the scenario produces (second result only). -/
def fndScen2 : Value :=
  Value.dict [("source", Value.str "B"), ("url", Value.str "http://b"),
    ("text", Value.str "Second page text"), ("preview", Value.str "Second page text")]

/-- A search tool that raises, for C10's witness. -/
def searchBoom : Tool := fun _ => ToolBehavior.exn "boom"

/-- Witness agent for C10. -/
def stSearchBoom : AgentState := ⟨[("search", searchBoom)], []⟩

/-- Witness agent for C9: the fetch tool returns `fetch_webpage`'s timeout
failure dictionary (a normal return, not an exception). -/
def fetchTimeoutTool : Tool :=
  fun _ => ToolBehavior.ret (fetch_webpage "http://a" 10 FetchOutcome.timeout)

/-- Witness agent for C9. -/
def stTimeout : AgentState := ⟨[("fetch", fetchTimeoutTool)], []⟩

/-- An empty-result search tool, for C3's witness. -/
def searchEmpty : Tool := fun _ => ToolBehavior.ret (Value.list [])

/-- Witness agent for C3. -/
def stSearchEmpty : AgentState := ⟨[("search", searchEmpty)], []⟩

/-- One parsed search result record. -/
structure SearchResult where
  title : String
  url : String
  snippet : String

/-- One provider result block (`div class='result'`) as the parser sees it:
the optional title element's stripped text, the optional url element with its
optional `href` attribute, and the optional snippet element's text. -/
structure ResultBlock where
  titleElem : Option String
  urlElem : Option (Option String)
  snippetElem : Option String

/-- The outside world's answer to `search_web`'s POST + parse: either some
exception (network or parsing), or the parsed result blocks. -/
inductive SearchWorld where
  | exn (msg : String)
  | page (blocks : List ResultBlock)

/-- The per-block extraction of `search_web` (`tools.py` lines 250-268):
defaults for missing title/snippet, skip when the url is `None` or empty. -/
def resultOfBlock (b : ResultBlock) : Option SearchResult :=
  let title := match b.titleElem with
    | some s => s
    | Option.none => "No title"
  let result_url : Option String := match b.urlElem with
    | Option.none => some ""
    | some h => h
  let snippet := match b.snippetElem with
    | some s => s
    | Option.none => "No description"
  match result_url with
  | Option.none => Option.none
  | some u => if u == "" then Option.none else some ⟨title, u, snippet⟩

/-- Model of `search_web(query, num_results)` over a `SearchWorld` oracle. -/
def search_web (query : String) (num_results : Nat) (w : SearchWorld) :
    List SearchResult :=
  match w with
  | SearchWorld.exn m => [⟨"Search Error", "", "Search failed: " ++ m⟩]
  | SearchWorld.page blocks =>
    let search_results := (blocks.take num_results).filterMap resultOfBlock
    if search_results.isEmpty then
      [⟨"No results found", "", "No search results for \"" ++ query ++ "\""⟩]
    else search_results

/-- Python `s.startswith(p)`. -/
def pyStartsWith (s p : String) : Bool := p.data.isPrefixOf s.data

/-- One anchor element carrying an `href`, with its stripped visible text. -/
structure Anchor where
  href : String
  text : String

/-- One returned link record. -/
structure Link where
  url : String
  text : String

/-- The per-anchor body of `extract_links` (`tools.py` lines 173-188), with
`urljoin` passed as an oracle `uj`. -/
def resolveLink (uj : String → String → String) (base_url : String)
    (a : Anchor) : Option Link :=
  let href := if pyStartsWith a.href "http" then a.href else uj base_url a.href
  if pyStartsWith href "http" then
    some ⟨href, if a.text == "" then "(no text)" else a.text⟩
  else Option.none

/-- Model of `extract_links(html, base_url)`, the html abstracted to its list of
href-carrying anchors. -/
def extract_links (anchors : List Anchor) (base_url : String)
    (uj : String → String → String) : List Link :=
  anchors.filterMap (resolveLink uj base_url)

/-- The spec's notion for C6, stated from its words: an absolute URL with an
HTTP(S) scheme. -/
def specHttpAbsolute (u : String) : Bool :=
  pyStartsWith u "http://" || pyStartsWith u "https://"

/-- A concrete stand-in for `urljoin` used by closed statements (the
counterexample below never consults it). -/
def ujConcat : String → String → String := fun b r => b ++ r

/-- The whitespace characters Python's default `str.strip()` removes. -/
def pyIsSpace (c : Char) : Bool :=
  c == ' ' || c == '\t' || c == '\n' || c == '\r' ||
  c.toNat == 0x0b || c.toNat == 0x0c ||
  (0x1c ≤ c.toNat && c.toNat ≤ 0x1f) ||
  c.toNat == 0x85 || c.toNat == 0xa0 || c.toNat == 0x1680 ||
  (0x2000 ≤ c.toNat && c.toNat ≤ 0x200a) ||
  c.toNat == 0x2028 || c.toNat == 0x2029 || c.toNat == 0x202f ||
  c.toNat == 0x205f || c.toNat == 0x3000

/-- The line boundaries of Python's `str.splitlines`. -/
def isLineBreakChar (c : Char) : Bool :=
  c == '\n' || c == '\r' ||
  c.toNat == 0x0b || c.toNat == 0x0c ||
  (0x1c ≤ c.toNat && c.toNat ≤ 0x1e) ||
  c.toNat == 0x85 || c.toNat == 0x2028 || c.toNat == 0x2029

/-- Python `str.strip()` on a character list. -/
def pyStrip (cs : List Char) : List Char :=
  ((cs.dropWhile pyIsSpace).reverse.dropWhile pyIsSpace).reverse

/-- Core of Python `str.splitlines`: split at every line boundary, a `\r\n`
pair counting as one boundary; the piece after a trailing boundary is kept
(empty) and removed by `pySplitlines`. -/
def splitLinesCore : List Char → List (List Char)
  | [] => [[]]
  | [c] => if isLineBreakChar c then [[], []] else [[c]]
  | a :: b :: rest =>
    if a == '\r' && b == '\n' then [] :: splitLinesCore rest
    else if isLineBreakChar a then [] :: splitLinesCore (b :: rest)
    else
      match splitLinesCore (b :: rest) with
      | [] => [[a]]
      | p :: ps => (a :: p) :: ps

/-- Python `str.splitlines` (no empty final line for a trailing boundary). -/
def pySplitlines (cs : List Char) : List (List Char) :=
  let ls := splitLinesCore cs
  if ls.getLast? = some [] then ls.dropLast else ls

/-- Python `line.split("  ")`: split at each leftmost occurrence of two
consecutive spaces. -/
def splitTwo : List Char → List (List Char)
  | [] => [[]]
  | [c] => [[c]]
  | a :: b :: rest =>
    if a == ' ' && b == ' ' then [] :: splitTwo rest
    else
      match splitTwo (b :: rest) with
      | [] => [[a]]
      | p :: ps => (a :: p) :: ps

/-- No two consecutive spaces (`split("  ")` then leaves the list whole). -/
def noDoubleSpace : List Char → Bool
  | a :: b :: rest => !(a == ' ' && b == ' ') && noDoubleSpace (b :: rest)
  | _ => true

/-- The whitespace-cleanup stage of `extract_text` (`tools.py` lines
128-135): split into lines, strip each, split each on two spaces, strip each
phrase, keep the non-empty chunks, join with newlines. -/
def cleanText (cs : List Char) : List Char :=
  let lines := (pySplitlines cs).map pyStrip
  let chunks := lines.flatMap (fun line => (splitTwo line).map pyStrip)
  List.intercalate ['\n'] (chunks.filter (fun c => !c.isEmpty))

/-- Model of `extract_text(html)`: the BeautifulSoup stage (parse, decompose
`script/style/nav/footer/header/aside`, `get_text(separator='\n')`) is the
external collaborator `soup`; the in-repo cleanup stage is `cleanText`. -/
def extract_text (soup : String → String) (html : String) : String :=
  String.mk (cleanText (soup html).data)

/-- The identity text extractor: on plain text (no markup), the parser's
`get_text` returns the text unchanged. -/
def soupId : String → String := fun s => s

/-- Fact: `execute_tool` never changes the tool registry. -/
theorem execute_tool_tools (st : AgentState) (tool_name : String) (kwargs : Args) :
    (execute_tool st tool_name kwargs).2.tools = st.tools := by
  unfold execute_tool
  split
  · rfl
  · split <;> rfl

/-- Evaluation of `execute_tool` when the tool exists and returns normally. -/
theorem execute_tool_ret_eq
    (st : AgentState) (tool_name : String) (kwargs : Args) (f : Tool) (r : Value)
    (hf : st.tools.lookup tool_name = some f)
    (hr : f kwargs = ToolBehavior.ret r) :
    execute_tool st tool_name kwargs =
      (r, { st with history := st.history ++ [⟨tool_name, kwargs, r⟩] }) := by
  unfold execute_tool
  rw [hf]
  simp only [hr]

/-- Evaluation of `execute_tool` when the tool exists and raises. -/
theorem execute_tool_exn_eq
    (st : AgentState) (tool_name : String) (kwargs : Args) (f : Tool) (m : String)
    (hf : st.tools.lookup tool_name = some f)
    (hm : f kwargs = ToolBehavior.exn m) :
    execute_tool st tool_name kwargs =
      (Value.dict [("success", Value.bool false),
        ("error", Value.str ("Tool failed: " ++ m))], st) := by
  unfold execute_tool
  rw [hf]
  simp only [hm]

/-- C1: for a tool name present in the registry whose callable returns
normally with value `r`, `execute_tool` appends exactly one record
`{tool, args, result}` to the history (so its length grows by exactly one and
the last record's tool and args match the call) and returns `r` unchanged. -/
theorem execute_tool_success_appends
    (st : AgentState) (tool_name : String) (kwargs : Args) (f : Tool) (r : Value)
    (hf : st.tools.lookup tool_name = some f)
    (hr : f kwargs = ToolBehavior.ret r) :
    execute_tool st tool_name kwargs =
      (r, { st with history := st.history ++ [⟨tool_name, kwargs, r⟩] }) ∧
    (execute_tool st tool_name kwargs).1 = r ∧
    (execute_tool st tool_name kwargs).2.history.length = st.history.length + 1 ∧
    (execute_tool st tool_name kwargs).2.history.getLast? =
      some ⟨tool_name, kwargs, r⟩ := by
  simp [execute_tool, hf, hr]

theorem execute_tool_success_appends_witness :
    execute_tool stOne "t" [] =
      (Value.nat 7, { stOne with history := stOne.history ++ [⟨"t", [], Value.nat 7⟩] }) ∧
    (execute_tool stOne "t" []).1 = Value.nat 7 ∧
    (execute_tool stOne "t" []).2.history.length = stOne.history.length + 1 ∧
    (execute_tool stOne "t" []).2.history.getLast? = some ⟨"t", [], Value.nat 7⟩ :=
  execute_tool_success_appends stOne "t" [] toolSeven (Value.nat 7) rfl rfl

/-- C2: on either failure path of `execute_tool` the history is left
unchanged and a structured failure dictionary is returned: an unknown name
yields `{'success': False, 'error': "Tool '<name>' not found"}`, a raising
callable yields `{'success': False, 'error': "Tool failed: <message>"}`. -/
theorem execute_tool_failure_paths
    (st : AgentState) (tool_name : String) (kwargs : Args) :
    (st.tools.lookup tool_name = Option.none →
      execute_tool st tool_name kwargs =
        (Value.dict [("success", Value.bool false),
          ("error", Value.str ("Tool " ++ apos ++ tool_name ++ apos ++ " not found"))], st) ∧
      (execute_tool st tool_name kwargs).2.history = st.history) ∧
    (∀ f m, st.tools.lookup tool_name = some f → f kwargs = ToolBehavior.exn m →
      execute_tool st tool_name kwargs =
        (Value.dict [("success", Value.bool false),
          ("error", Value.str ("Tool failed: " ++ m))], st) ∧
      (execute_tool st tool_name kwargs).2.history = st.history) := by
  constructor
  · intro h
    simp [execute_tool, h]
  · intro f m hf hm
    simp [execute_tool, hf, hm]

theorem execute_tool_failure_paths_witness :
    (execute_tool stOne "missing" [] =
      (Value.dict [("success", Value.bool false),
        ("error", Value.str ("Tool " ++ apos ++ "missing" ++ apos ++ " not found"))], stOne) ∧
     (execute_tool stOne "missing" []).2.history = stOne.history) ∧
    (execute_tool stBoom "b" [] =
      (Value.dict [("success", Value.bool false),
        ("error", Value.str ("Tool failed: " ++ "boom"))], stBoom) ∧
     (execute_tool stBoom "b" []).2.history = stBoom.history) :=
  ⟨(execute_tool_failure_paths stOne "missing" []).1 rfl,
   (execute_tool_failure_paths stBoom "b" []).2 toolBoom "boom" rfl rfl⟩

theorem computePreview_str (s : String) :
    computePreview (Value.str s) = some (Value.str (previewStr s)) := by
  by_cases h : 500 < s.length <;>
    simp [computePreview, pyLen, pySliceTake, pyAdd, previewStr, h]

theorem previewStr_length_le (s : String) : (previewStr s).length ≤ 503 := by
  unfold previewStr
  split
  · next h =>
    have htake : (s.data.take 500).length = 500 := by
      rw [List.length_take]
      exact Nat.min_eq_left (Nat.le_of_lt h)
    simp [String.length_append, htake]
    decide
  · next h => omega

theorem previewStr_length_long (s : String) (h : 500 < s.length) :
    (previewStr s).length = 503 := by
  unfold previewStr
  rw [if_pos h]
  have htake : (s.data.take 500).length = 500 := by
    rw [List.length_take]
    exact Nat.min_eq_left (Nat.le_of_lt h)
  simp [String.length_append, htake]
  decide

/-- The loop of `research` preserves the source/finding correspondence: it
either skips a result entirely or appends one aligned entry to each list. -/
theorem researchLoop_align (results : List Value) :
    ∀ (st : AgentState) (sources findings ss fs : List Value) (st2 : AgentState),
      researchLoop st results sources findings = some (ss, fs, st2) →
      List.Forall₂ SameSource sources findings →
      List.Forall₂ SameSource ss fs := by
  induction results with
  | nil =>
    intro st sources findings ss fs st2 h hF
    simp only [researchLoop, Option.some.injEq, Prod.mk.injEq] at h
    obtain ⟨rfl, rfl, rfl⟩ := h
    exact hF
  | cons r rest ih =>
    intro st sources findings ss fs st2 h hF
    simp only [researchLoop] at h
    split at h
    · simp at h
    next x1 url hu =>
      split at h
      · simp at h
      next x2 title ht =>
        split at h
        · simp at h
        next x3 succ hsu =>
          split at h
          · exact ih _ _ _ _ _ _ h hF
          · split at h
            · simp at h
            next x4 content hc =>
              split at h
              · simp at h
              next x5 preview hp =>
                split at h
                · simp at h
                next x6 snippet hsn =>
                  refine ih _ _ _ _ _ _ h (List.rel_append hF ?_)
                  exact List.Forall₂.cons
                    ⟨title, url, snippet, _, preview, rfl, rfl⟩ List.Forall₂.nil

/-- When the registered `extract_text` tool always returns a string, every
finding the loop appends carries that string as `text` and its truncation as
`preview`. -/
theorem researchLoop_previews (results : List Value) :
    ∀ (st : AgentState) (sources findings ss fs : List Value) (st2 : AgentState)
      (ext : Tool),
      st.tools.lookup "extract_text" = some ext →
      (∀ a, ∃ s, ext a = ToolBehavior.ret (Value.str s)) →
      researchLoop st results sources findings = some (ss, fs, st2) →
      (∀ fv ∈ findings, GoodFinding fv) →
      ∀ fv ∈ fs, GoodFinding fv := by
  induction results with
  | nil =>
    intro st sources findings ss fs st2 ext _ _ h hGood
    simp only [researchLoop, Option.some.injEq, Prod.mk.injEq] at h
    obtain ⟨rfl, rfl, rfl⟩ := h
    exact hGood
  | cons r rest ih =>
    intro st sources findings ss fs st2 ext hext hstr h hGood
    simp only [researchLoop] at h
    split at h
    · simp at h
    next x1 url hu =>
      split at h
      · simp at h
      next x2 title ht =>
        split at h
        · simp at h
        next x3 succ hsu =>
          split at h
          · refine ih _ _ _ _ _ _ ext ?_ hstr h hGood
            rw [execute_tool_tools]
            exact hext
          · split at h
            · simp at h
            next x4 content hc =>
              split at h
              · simp at h
              next x5 preview hprev =>
                split at h
                · simp at h
                next x6 snippet hsn =>
                  obtain ⟨s, hs⟩ := hstr [("html", content)]
                  have htools : (execute_tool st "fetch" [("url", url)]).2.tools.lookup
                      "extract_text" = some ext := by
                    rw [execute_tool_tools]; exact hext
                  have htr1 : (execute_tool (execute_tool st "fetch" [("url", url)]).2
                      "extract_text" [("html", content)]).1 = Value.str s := by
                    rw [execute_tool_ret_eq _ _ _ ext (Value.str s) htools hs]
                  rw [htr1] at hprev h
                  rw [computePreview_str] at hprev
                  have hpv := Option.some.inj hprev
                  subst hpv
                  refine ih _ _ _ _ _ _ ext ?_ hstr h ?_
                  · rw [execute_tool_tools, execute_tool_tools]
                    exact hext
                  · intro fv hfv
                    rcases List.mem_append.mp hfv with hm | hm
                    · exact hGood fv hm
                    · rcases List.mem_singleton.mp hm with rfl
                      exact ⟨title, url, s, rfl⟩

/-- C3: `research` reaches exactly the two no-data summaries: an empty search
result list, or a first result whose `url` is the empty string, produce the
early `"No results found"` dictionary with empty `sources`/`findings` and no
fetch (only the search record is added); if the search result passes the
guards but `findings` is empty after the loop, the summary is exactly
`"No information found."`. -/
theorem research_no_data_summaries
    (st : AgentState) (q : String) (n : Nat) (f : Tool)
    (hf : st.tools.lookup "search" = some f) :
    (f [("query", Value.str q), ("num_results", Value.nat n)] =
        ToolBehavior.ret (Value.list []) →
      research st q n =
        some ({question := q, sources := [], findings := [],
               summary := "No results found"},
          { st with history := st.history ++
            [⟨"search", [("query", Value.str q), ("num_results", Value.nat n)],
              Value.list []⟩] })) ∧
    (∀ kvs rest,
      f [("query", Value.str q), ("num_results", Value.nat n)] =
        ToolBehavior.ret (Value.list (Value.dict kvs :: rest)) →
      kvs.lookup "url" = some (Value.str "") →
      research st q n =
        some ({question := q, sources := [], findings := [],
               summary := "No results found"},
          { st with history := st.history ++
            [⟨"search", [("query", Value.str q), ("num_results", Value.nat n)],
              Value.list (Value.dict kvs :: rest)⟩] })) ∧
    (∀ v, f [("query", Value.str q), ("num_results", Value.nat n)] =
        ToolBehavior.ret v →
      pyTruthy v = true →
      ∀ first u0, pySubscript v (Value.nat 0) = some first →
        pyDictGet first "url" = some u0 → pyEqStr u0 "" = false →
        ∀ out st2, research st q n = some (out, st2) → out.findings = [] →
          out.summary = "No information found.") := by
  refine ⟨?_, ?_, ?_⟩
  · intro h
    have hrun := execute_tool_ret_eq st "search"
      [("query", Value.str q), ("num_results", Value.nat n)] f (Value.list []) hf h
    simp [research, hrun, pyTruthy]
  · intro kvs rest h hu
    have hrun := execute_tool_ret_eq st "search"
      [("query", Value.str q), ("num_results", Value.nat n)] f
      (Value.list (Value.dict kvs :: rest)) hf h
    simp [research, hrun, pyTruthy, pySubscript, pyDictGet, pyEqStr, hu]
  · intro v hv htruthy first u0 hsub hget hne out st2 hres hfind
    have hrun := execute_tool_ret_eq st "search"
      [("query", Value.str q), ("num_results", Value.nat n)] f v hf hv
    simp only [research, hrun, htruthy, hsub, hget, hne, Bool.not_true,
      Bool.false_eq_true, if_false] at hres
    split at hres
    · simp at hres
    next xsl rs hslice =>
      split at hres
      · simp at hres
      next xlp ss fs st3 hloop =>
        split at hres
        · simp at hres
        next xsm summ hsum =>
          simp only [Option.some.injEq, Prod.mk.injEq] at hres
          obtain ⟨ho, -⟩ := hres
          subst ho
          have hfs : fs = [] := hfind
          subst hfs
          simp only [create_simple_summary, List.isEmpty_nil, if_true,
            Option.some.injEq] at hsum
          show summ = "No information found."
          exact hsum.symm
    next xsl sv hslice =>
      simp at hres

theorem research_no_data_summaries_witness :
    research stSearchEmpty "q" 1 =
      some ({question := "q", sources := [], findings := [],
             summary := "No results found"},
        { stSearchEmpty with history := stSearchEmpty.history ++
          [⟨"search", [("query", Value.str "q"), ("num_results", Value.nat 1)],
            Value.list []⟩] }) :=
  (research_no_data_summaries stSearchEmpty "q" 1 searchEmpty rfl).1 rfl

/-- C4: a search result whose fetch fails is skipped (no placeholder), so
`sources` and `findings` are index-aligned with entry `i` of each describing
the same fetched result; in the concrete two-result scenario where the first
fetch fails, `findings` has length 1 and corresponds to the second result. -/
theorem research_aligned_and_scenario :
    (∀ st q n out st2, research st q n = some (out, st2) →
      List.Forall₂ SameSource out.sources out.findings) ∧
    ((research stScen "q" 2).map (fun p => (p.1.sources, p.1.findings)) =
      some ([srcScen2], [fndScen2])) := by
  constructor
  · intro st q n out st2 h
    simp only [research] at h
    split at h
    · simp only [Option.some.injEq, Prod.mk.injEq] at h
      obtain ⟨ho, -⟩ := h
      subst ho
      exact List.Forall₂.nil
    · split at h
      · simp at h
      next x1 first hfirst =>
        split at h
        · simp at h
        next x2 u0 hu0 =>
          split at h
          · simp only [Option.some.injEq, Prod.mk.injEq] at h
            obtain ⟨ho, -⟩ := h
            subst ho
            exact List.Forall₂.nil
          · split at h
            · simp at h
            next x3 rs hslice =>
              split at h
              · simp at h
              next x4 ss fs st3 hloop =>
                split at h
                · simp at h
                next x5 summ hsum =>
                  simp only [Option.some.injEq, Prod.mk.injEq] at h
                  obtain ⟨ho, -⟩ := h
                  subst ho
                  exact researchLoop_align rs _ [] [] ss fs st3 hloop List.Forall₂.nil
            next x3 sv hslice =>
              simp at h
  · rfl

theorem research_aligned_and_scenario_witness :
    List.Forall₂ SameSource [srcScen2] [fndScen2] :=
  research_aligned_and_scenario.1 stScen "q" 2 _ _ rfl

/-- C7: every finding built by `research` (when the registered `extract_text`
tool returns strings, as the real one does) stores the extracted text and a
preview that is the first 500 characters followed by `"..."` when the text
exceeds 500 characters and the text itself otherwise; the preview length
never exceeds 503. -/
theorem research_preview_bound :
    ∀ (st : AgentState) (q : String) (n : Nat) (ext : Tool)
      (out : ResearchOutput) (st2 : AgentState),
      st.tools.lookup "extract_text" = some ext →
      (∀ a, ∃ s, ext a = ToolBehavior.ret (Value.str s)) →
      research st q n = some (out, st2) →
      ∀ fv ∈ out.findings, ∃ t u s,
        fv = Value.dict [("source", t), ("url", u), ("text", Value.str s),
          ("preview", Value.str (previewStr s))] ∧
        (previewStr s).length ≤ 503 ∧
        (500 < s.length → previewStr s = String.mk (s.data.take 500) ++ "...") ∧
        (s.length ≤ 500 → previewStr s = s) := by
  intro st q n ext out st2 hext hstr hres
  simp only [research] at hres
  split at hres
  · simp only [Option.some.injEq, Prod.mk.injEq] at hres
    obtain ⟨ho, -⟩ := hres
    subst ho
    intro fv hfv
    simp at hfv
  · split at hres
    · simp at hres
    next x1 first hfirst =>
      split at hres
      · simp at hres
      next x2 u0 hu0 =>
        split at hres
        · simp only [Option.some.injEq, Prod.mk.injEq] at hres
          obtain ⟨ho, -⟩ := hres
          subst ho
          intro fv hfv
          simp at hfv
        · split at hres
          · simp at hres
          next x3 rs hslice =>
            split at hres
            · simp at hres
            next x4 ss fs st3 hloop =>
              split at hres
              · simp at hres
              next x5 summ hsum =>
                simp only [Option.some.injEq, Prod.mk.injEq] at hres
                obtain ⟨ho, -⟩ := hres
                subst ho
                intro fv hfv
                have hfv2 : fv ∈ fs := hfv
                have htools2 : (execute_tool st "search"
                    [("query", Value.str q),
                     ("num_results", Value.nat n)]).2.tools.lookup
                    "extract_text" = some ext := by
                  rw [execute_tool_tools]
                  exact hext
                obtain ⟨t, u, s, rfl⟩ :=
                  researchLoop_previews rs _ [] [] ss fs st3 ext htools2 hstr hloop
                    (by intro fv h; simp at h) fv hfv2
                refine ⟨t, u, s, rfl, previewStr_length_le s, ?_, ?_⟩
                · intro hlen
                  simp [previewStr, hlen]
                · intro hlen
                  simp [previewStr, Nat.not_lt.mpr hlen]
          next x3 sv hslice =>
            simp at hres

theorem research_preview_bound_witness :
    ∃ t u s, fndScen2 = Value.dict [("source", t), ("url", u),
      ("text", Value.str s), ("preview", Value.str (previewStr s))] ∧
      (previewStr s).length ≤ 503 ∧
      (500 < s.length → previewStr s = String.mk (s.data.take 500) ++ "...") ∧
      (s.length ≤ 500 → previewStr s = s) :=
  research_preview_bound stScen "q" 2 extractScen _ _ rfl
    (fun _ => ⟨"Second page text", rfl⟩) rfl fndScen2
    (by exact List.mem_singleton.mpr rfl)

/-- C9: a tool that reports failure by returning a `{success: False, ...}`
dictionary normally (as `fetch_webpage` does on timeout or request error)
still gets a history record: the loop of `research` skips such a source but
the `fetch` record with the failure dictionary is appended; only raising
tools bypass the ledger. -/
theorem tool_failure_value_still_recorded :
    (∀ (st : AgentState) (name : String) (kwargs : Args) (f : Tool) (v : Value),
      st.tools.lookup name = some f → f kwargs = ToolBehavior.ret v →
      (execute_tool st name kwargs).2.history = st.history ++ [⟨name, kwargs, v⟩]) ∧
    (∀ (st : AgentState) (kvs : List (String × Value))
      (rest sources findings : List Value)
      (fetchF : Tool) (u t v sv : Value),
      st.tools.lookup "fetch" = some fetchF →
      kvs.lookup "url" = some u → kvs.lookup "title" = some t →
      fetchF [("url", u)] = ToolBehavior.ret v →
      pyDictGet v "success" = some sv → pyTruthy sv = false →
      researchLoop st (Value.dict kvs :: rest) sources findings =
        researchLoop { st with history := st.history ++ [⟨"fetch", [("url", u)], v⟩] }
          rest sources findings) ∧
    (∀ (st : AgentState) (name : String) (kwargs : Args) (f : Tool) (m : String),
      st.tools.lookup name = some f → f kwargs = ToolBehavior.exn m →
      (execute_tool st name kwargs).2.history = st.history) := by
  refine ⟨?_, ?_, ?_⟩
  · intro st name kwargs f v hf hr
    rw [execute_tool_ret_eq st name kwargs f v hf hr]
  · intro st kvs rest sources findings fetchF u t v sv hf hu ht hr hg htr
    have hrun := execute_tool_ret_eq st "fetch" [("url", u)] fetchF v hf hr
    simp [researchLoop, pySubscript, hu, ht, hrun, hg, htr]
  · intro st name kwargs f m hf hm
    rw [execute_tool_exn_eq st name kwargs f m hf hm]

theorem tool_failure_value_still_recorded_witness :
    researchLoop stTimeout
      [Value.dict [("title", Value.str "A"), ("url", Value.str "http://a")]] [] [] =
    researchLoop { stTimeout with history := stTimeout.history ++
      [⟨"fetch", [("url", Value.str "http://a")],
        fetch_webpage "http://a" 10 FetchOutcome.timeout⟩] } [] [] [] :=
  tool_failure_value_still_recorded.2.1 stTimeout
    [("title", Value.str "A"), ("url", Value.str "http://a")] [] [] []
    fetchTimeoutTool (Value.str "http://a") (Value.str "A")
    (fetch_webpage "http://a" 10 FetchOutcome.timeout) (Value.bool false)
    rfl rfl rfl rfl rfl rfl

/-- C10: if the registered `search` tool raises, `execute_tool` returns the
truthy dictionary `{success: False, error: "Tool failed: ..."}`, the guard
then subscripts that dictionary with the integer 0 — which raises — so
`research` terminates abnormally instead of returning "No results found". -/
theorem research_search_raise_crashes
    (st : AgentState) (q : String) (n : Nat) (f : Tool) (m : String)
    (hf : st.tools.lookup "search" = some f)
    (hm : f [("query", Value.str q), ("num_results", Value.nat n)] =
      ToolBehavior.exn m) :
    (execute_tool st "search" [("query", Value.str q),
      ("num_results", Value.nat n)]).1 =
      Value.dict [("success", Value.bool false),
        ("error", Value.str ("Tool failed: " ++ m))] ∧
    pyTruthy (Value.dict [("success", Value.bool false),
      ("error", Value.str ("Tool failed: " ++ m))]) = true ∧
    pySubscript (Value.dict [("success", Value.bool false),
      ("error", Value.str ("Tool failed: " ++ m))]) (Value.nat 0) = Option.none ∧
    research st q n = Option.none := by
  have hrun := execute_tool_exn_eq st "search"
    [("query", Value.str q), ("num_results", Value.nat n)] f m hf hm
  refine ⟨by rw [hrun], rfl, rfl, ?_⟩
  simp [research, hrun, pyTruthy, pySubscript]

theorem research_search_raise_crashes_witness :
    (execute_tool stSearchBoom "search"
      [("query", Value.str "q"), ("num_results", Value.nat 1)]).1 =
      Value.dict [("success", Value.bool false),
        ("error", Value.str ("Tool failed: " ++ "boom"))] ∧
    pyTruthy (Value.dict [("success", Value.bool false),
      ("error", Value.str ("Tool failed: " ++ "boom"))]) = true ∧
    pySubscript (Value.dict [("success", Value.bool false),
      ("error", Value.str ("Tool failed: " ++ "boom"))]) (Value.nat 0) =
      Option.none ∧
    research stSearchBoom "q" 1 = Option.none :=
  research_search_raise_crashes stSearchBoom "q" 1 searchBoom "boom" rfl rfl

/-- C5: `search_web` always returns a non-empty sequence and never raises:
any transport/parse failure yields the single `"Search Error"` sentinel,
zero usable blocks (blocks lacking a url are skipped entirely) yield the
single `"No results found"` sentinel, and in both cases the first element's
url is the empty string. -/
theorem search_web_sentinels (q : String) (n : Nat) (w : SearchWorld) :
    search_web q n w ≠ [] ∧
    (∀ m, w = SearchWorld.exn m →
      search_web q n w = [⟨"Search Error", "", "Search failed: " ++ m⟩]) ∧
    (∀ blocks, w = SearchWorld.page blocks →
      (blocks.take n).filterMap resultOfBlock = [] →
      search_web q n w =
        [⟨"No results found", "", "No search results for \"" ++ q ++ "\""⟩]) ∧
    (∀ b, b.urlElem = Option.none ∨ b.urlElem = some Option.none ∨
        b.urlElem = some (some "") → resultOfBlock b = Option.none) ∧
    (∀ m, w = SearchWorld.exn m →
      ((search_web q n w).map SearchResult.url).head? = some "") ∧
    (∀ blocks, w = SearchWorld.page blocks →
      (blocks.take n).filterMap resultOfBlock = [] →
      ((search_web q n w).map SearchResult.url).head? = some "") := by
  refine ⟨?_, ?_, ?_, ?_, ?_, ?_⟩
  · cases w with
    | exn m => simp [search_web]
    | page blocks =>
      simp only [search_web]
      split
      · simp
      · next h =>
        intro hc
        rw [hc] at h
        simp at h
  · intro m hm
    subst hm
    rfl
  · intro blocks hb he
    subst hb
    simp [search_web, he]
  · intro b hb
    rcases hb with h | h | h <;> simp [resultOfBlock, h]
  · intro m hm
    subst hm
    rfl
  · intro blocks hb he
    subst hb
    simp [search_web, he]

theorem search_web_sentinels_witness :
    search_web "q" 3 (SearchWorld.exn "x") =
      [⟨"Search Error", "", "Search failed: " ++ "x"⟩] ∧
    search_web "q" 3 (SearchWorld.page []) =
      [⟨"No results found", "", "No search results for \"" ++ "q" ++ "\""⟩] :=
  ⟨(search_web_sentinels "q" 3 (SearchWorld.exn "x")).2.1 "x" rfl,
   (search_web_sentinels "q" 3 (SearchWorld.page [])).2.2.1 [] rfl rfl⟩

/-- A string that starts with `"http"` cannot start with `"mailto:"` or
`"javascript:"`. -/
theorem http_prefix_blocks_schemes (s : String)
    (h : pyStartsWith s "http" = true) :
    pyStartsWith s "mailto:" = false ∧ pyStartsWith s "javascript:" = false := by
  unfold pyStartsWith at h ⊢
  have hh : ("http").data = 'h' :: ("ttp").data := rfl
  have hm : ("mailto:").data = 'm' :: ("ailto:").data := rfl
  have hj : ("javascript:").data = 'j' :: ("avascript:").data := rfl
  rw [hh] at h
  rw [hm, hj]
  cases hs : s.data with
  | nil =>
    rw [hs] at h
    simp [List.isPrefixOf] at h
  | cons c cs =>
    rw [hs] at h
    simp only [List.isPrefixOf, Bool.and_eq_true] at h
    obtain ⟨h1, -⟩ := h
    have hc : c = 'h' := by
      have := beq_iff_eq.mp h1
      exact this.symm
    subst hc
    constructor
    · simp only [List.isPrefixOf]
      rw [show (('m' : Char) == 'h') = false from rfl, Bool.false_and]
    · simp only [List.isPrefixOf]
      rw [show (('j' : Char) == 'h') = false from rfl, Bool.false_and]

/-- C6 counterexample: an href that merely starts with the substring `http`
is kept verbatim, so `extract_links` can return a relative URL — here the
relative href `"httpfoo"`, which is not an absolute HTTP(S) URL. -/
theorem extract_links_absolute_cex :
    extract_links [⟨"httpfoo", "x"⟩] "https://example.com/" ujConcat =
      [⟨"httpfoo", "x"⟩] ∧
    specHttpAbsolute "httpfoo" = false :=
  ⟨rfl, rfl⟩

/-- C6 (amended): every link `extract_links` returns has a url that starts
with the literal prefix `"http"` — hence never a `mailto:` or `javascript:`
scheme — where an href not already starting with `"http"` is first resolved
against `base_url`; the text is the anchor's text, or `"(no text)"` when that
text is empty.  (The url is not guaranteed absolute: an href that merely
starts with `"http"` is kept verbatim.) -/
theorem extract_links_http_prefixed (anchors : List Anchor) (base_url : String)
    (uj : String → String → String) :
    ∀ l ∈ extract_links anchors base_url uj,
      pyStartsWith l.url "http" = true ∧
      pyStartsWith l.url "mailto:" = false ∧
      pyStartsWith l.url "javascript:" = false ∧
      ∃ a ∈ anchors,
        l.url = (if pyStartsWith a.href "http" then a.href
                 else uj base_url a.href) ∧
        l.text = (if a.text == "" then "(no text)" else a.text) := by
  intro l hl
  obtain ⟨a, ha, hres⟩ := List.mem_filterMap.mp hl
  simp only [resolveLink, Option.ite_none_right_eq_some,
    Option.some.injEq] at hres
  obtain ⟨hcond, hl2⟩ := hres
  subst hl2
  exact ⟨hcond, (http_prefix_blocks_schemes _ hcond).1,
    (http_prefix_blocks_schemes _ hcond).2, a, ha, rfl, rfl⟩

theorem extract_links_http_prefixed_witness :
    pyStartsWith "http://e/a" "http" = true ∧
    pyStartsWith "http://e/a" "mailto:" = false ∧
    pyStartsWith "http://e/a" "javascript:" = false ∧
    ∃ a ∈ [(⟨"/a", ""⟩ : Anchor)],
      "http://e/a" = (if pyStartsWith a.href "http" then a.href
                      else ujConcat "http://e" a.href) ∧
      "(no text)" = (if a.text == "" then "(no text)" else a.text) :=
  extract_links_http_prefixed [⟨"/a", ""⟩] "http://e" ujConcat
    ⟨"http://e/a", "(no text)"⟩ (by exact List.mem_singleton.mpr rfl)

theorem mem_of_getLast?_eq {α : Type} {l : List α} {a : α}
    (h : l.getLast? = some a) : a ∈ l := by
  cases l with
  | nil => simp at h
  | cons b t =>
    have he := List.getLast?_eq_getLast (b :: t) (by simp)
    rw [he] at h
    obtain rfl := Option.some.inj h.symm
    exact List.getLast_mem (by simp)

theorem dropWhile_head_false (p : Char → Bool) (l : List Char) (c : Char)
    (h : (l.dropWhile p).head? = some c) : p c = false := by
  have hd := List.head?_dropWhile_not p l
  rw [h] at hd
  exact hd

theorem dropWhile_eq_self_of_head (p : Char → Bool) (l : List Char)
    (h : ∀ c, l.head? = some c → p c = false) :
    l.dropWhile p = l := by
  cases l with
  | nil => rfl
  | cons a t => simp [List.dropWhile_cons, h a rfl]

theorem dropWhile_getLast?_eq (p : Char → Bool) (l : List Char)
    (h : l.dropWhile p ≠ []) : (l.dropWhile p).getLast? = l.getLast? := by
  induction l with
  | nil => simp at h
  | cons a t ih =>
    rw [List.dropWhile_cons]
    rw [List.dropWhile_cons] at h
    by_cases hp : p a = true
    · rw [if_pos hp]
      rw [if_pos hp] at h
      rw [ih h]
      have ht : t ≠ [] := by
        intro hc
        rw [hc] at h
        simp at h
      cases t with
      | nil => exact absurd rfl ht
      | cons b u => exact (List.getLast?_cons_cons).symm
    · rw [if_neg hp]

theorem pyStrip_head_false (l : List Char) (c : Char)
    (h : (pyStrip l).head? = some c) : pyIsSpace c = false := by
  unfold pyStrip at h
  rw [List.head?_reverse] at h
  have hne : (l.dropWhile pyIsSpace).reverse.dropWhile pyIsSpace ≠ [] := by
    intro hc
    rw [hc] at h
    simp at h
  rw [dropWhile_getLast?_eq pyIsSpace _ hne, List.getLast?_reverse] at h
  exact dropWhile_head_false pyIsSpace l c h

theorem pyStrip_getLast_false (l : List Char) (c : Char)
    (h : (pyStrip l).getLast? = some c) : pyIsSpace c = false := by
  unfold pyStrip at h
  rw [List.getLast?_reverse] at h
  exact dropWhile_head_false pyIsSpace _ c h

theorem pyStrip_eq_self (l : List Char)
    (h1 : ∀ c, l.head? = some c → pyIsSpace c = false)
    (h2 : ∀ c, l.getLast? = some c → pyIsSpace c = false) :
    pyStrip l = l := by
  unfold pyStrip
  rw [dropWhile_eq_self_of_head pyIsSpace l h1]
  rw [dropWhile_eq_self_of_head pyIsSpace l.reverse
    (fun c hc => h2 c (by rwa [List.head?_reverse] at hc))]
  exact List.reverse_reverse l

theorem pyStrip_idem (l : List Char) : pyStrip (pyStrip l) = pyStrip l :=
  pyStrip_eq_self (pyStrip l) (pyStrip_head_false l) (pyStrip_getLast_false l)

theorem mem_pyStrip (l : List Char) (c : Char) (h : c ∈ pyStrip l) : c ∈ l := by
  unfold pyStrip at h
  rw [List.mem_reverse] at h
  have h2 := ((List.dropWhile_suffix pyIsSpace).sublist).mem h
  rw [List.mem_reverse] at h2
  exact ((List.dropWhile_suffix pyIsSpace).sublist).mem h2

theorem noDS_iff_no_pair (l : List Char) :
    noDoubleSpace l = true ↔ ¬ ([' ', ' '] <:+: l) := by
  induction l with
  | nil =>
    simp only [noDoubleSpace, true_iff]
    intro h
    have := h.length_le
    simp at this
  | cons a t ih =>
    cases t with
    | nil =>
      simp only [noDoubleSpace, true_iff]
      intro h
      have := h.length_le
      simp at this
    | cons b u =>
      rw [show noDoubleSpace (a :: b :: u) =
        (!(a == ' ' && b == ' ') && noDoubleSpace (b :: u)) from rfl]
      rw [List.infix_cons_iff]
      constructor
      · intro h hbad
        rcases Bool.and_eq_true_iff.mp h with ⟨h1, h2⟩
        rcases hbad with hpre | hinf
        · rw [List.cons_prefix_cons] at hpre
          obtain ⟨ha, hpre2⟩ := hpre
          rw [List.cons_prefix_cons] at hpre2
          obtain ⟨hb, -⟩ := hpre2
          rw [← ha, ← hb] at h1
          simp at h1
        · exact (ih.mp h2) hinf
      · intro h
        refine Bool.and_eq_true_iff.mpr ⟨?_, ih.mpr (fun hinf => h (Or.inr hinf))⟩
        by_cases ha : a = ' '
        · by_cases hb : b = ' '
          · exact absurd (Or.inl (List.cons_prefix_cons.mpr
              ⟨ha.symm, List.cons_prefix_cons.mpr ⟨hb.symm, List.nil_prefix⟩⟩)) h
          · have hb2 : (b == ' ') = false := beq_eq_false_iff_ne.mpr hb
            simp [hb2]
        · have ha2 : (a == ' ') = false := beq_eq_false_iff_ne.mpr ha
          simp [ha2]

theorem noDS_mono (l1 l2 : List Char) (h : l1 <:+: l2)
    (hn : noDoubleSpace l2 = true) : noDoubleSpace l1 = true := by
  rw [noDS_iff_no_pair] at hn ⊢
  exact fun hbad => hn (hbad.trans h)

theorem pyStrip_within (l : List Char) : pyStrip l <:+: l := by
  unfold pyStrip
  have s1 : l.dropWhile pyIsSpace <:+ l := List.dropWhile_suffix _
  have s2 : (l.dropWhile pyIsSpace).reverse.dropWhile pyIsSpace <:+
      (l.dropWhile pyIsSpace).reverse := List.dropWhile_suffix _
  have s3 : ((l.dropWhile pyIsSpace).reverse.dropWhile pyIsSpace).reverse <+:
      l.dropWhile pyIsSpace := by
    rw [← List.reverse_suffix]
    simpa using s2
  exact s3.isInfix.trans s1.isInfix

theorem noDS_pyStrip (l : List Char) (h : noDoubleSpace l = true) :
    noDoubleSpace (pyStrip l) = true :=
  noDS_mono _ l (pyStrip_within l) h

theorem splitTwo_ne_nil (cs : List Char) : splitTwo cs ≠ [] := by
  cases cs with
  | nil => simp [splitTwo]
  | cons a t =>
    cases t with
    | nil => simp [splitTwo]
    | cons b rest =>
      simp only [splitTwo]
      split
      · simp
      · split <;> simp

theorem splitTwo_first_head (cs : List Char) :
    ∃ p ps, splitTwo cs = p :: ps ∧ (p = [] ∨ p.head? = cs.head?) := by
  cases cs with
  | nil => exact ⟨[], [], rfl, Or.inl rfl⟩
  | cons a t =>
    cases t with
    | nil => exact ⟨[a], [], rfl, Or.inr rfl⟩
    | cons b rest =>
      simp only [splitTwo]
      split
      · exact ⟨[], splitTwo rest, rfl, Or.inl rfl⟩
      · cases hs : splitTwo (b :: rest) with
        | nil => exact absurd hs (splitTwo_ne_nil _)
        | cons p ps => exact ⟨a :: p, ps, rfl, Or.inr rfl⟩

theorem splitTwo_mem_noDS (cs : List Char) :
    ∀ p ∈ splitTwo cs, noDoubleSpace p = true := by
  induction cs using splitTwo.induct with
  | case1 =>
    intro p hp
    simp only [splitTwo, List.mem_singleton] at hp
    subst hp
    rfl
  | case2 c =>
    intro p hp
    simp only [splitTwo, List.mem_singleton] at hp
    subst hp
    rfl
  | case3 a b rest hcond ih =>
    intro p hp
    simp only [splitTwo, if_pos hcond] at hp
    rcases List.mem_cons.mp hp with rfl | hp2
    · rfl
    · exact ih p hp2
  | case4 a b rest hcond hnil ih =>
    exact absurd hnil (splitTwo_ne_nil _)
  | case5 a b rest hcond p0 ps hs ih =>
    intro p hp
    simp only [splitTwo, if_neg hcond, hs] at hp
    rcases List.mem_cons.mp hp with rfl | hp2
    · have hnp0 : noDoubleSpace p0 = true :=
        ih p0 (by rw [hs]; exact List.mem_cons_self _ _)
      cases p0 with
      | nil => rfl
      | cons c0 p0' =>
        obtain ⟨p1, ps1, hs1, hh⟩ := splitTwo_first_head (b :: rest)
        rw [hs] at hs1
        injection hs1 with e1 e2
        rcases hh with h0 | h0
        · rw [← e1] at h0
          simp at h0
        · rw [← e1] at h0
          have hc0 : c0 = b := by simpa using h0
          rw [hc0] at hnp0 ⊢
          show (!(a == ' ' && b == ' ') && noDoubleSpace (b :: p0')) = true
          refine Bool.and_eq_true_iff.mpr ⟨?_, hnp0⟩
          have hfalse : (a == ' ' && b == ' ') = false := by
            cases hx : (a == ' ' && b == ' ') with
            | false => rfl
            | true => exact absurd hx hcond
          rw [hfalse]
          rfl
    · exact ih p (by rw [hs]; exact List.mem_cons_of_mem _ hp2)

theorem splitTwo_eq_of_noDS (cs : List Char) :
    noDoubleSpace cs = true → splitTwo cs = [cs] := by
  induction cs using splitTwo.induct with
  | case1 => intro _; rfl
  | case2 c => intro _; rfl
  | case3 a b rest hcond ih =>
    intro h
    exfalso
    have h2 : (!(a == ' ' && b == ' ') && noDoubleSpace (b :: rest)) = true := h
    rcases Bool.and_eq_true_iff.mp h2 with ⟨h1, -⟩
    rw [hcond] at h1
    simp at h1
  | case4 a b rest hcond hnil ih =>
    exact absurd hnil (splitTwo_ne_nil _)
  | case5 a b rest hcond p0 ps hs ih =>
    intro h
    have h2 : (!(a == ' ' && b == ' ') && noDoubleSpace (b :: rest)) = true := h
    have htail := (Bool.and_eq_true_iff.mp h2).2
    have hone := ih htail
    rw [hs] at hone
    injection hone with e1 e2
    subst e1
    subst e2
    simp only [splitTwo, if_neg hcond, hs]

theorem splitTwo_mem_subset (cs : List Char) :
    ∀ p ∈ splitTwo cs, ∀ c ∈ p, c ∈ cs := by
  induction cs using splitTwo.induct with
  | case1 =>
    intro p hp c hc
    simp only [splitTwo, List.mem_singleton] at hp
    subst hp
    simp at hc
  | case2 ch =>
    intro p hp c hc
    simp only [splitTwo, List.mem_singleton] at hp
    subst hp
    simpa using hc
  | case3 a b rest hcond ih =>
    intro p hp c hc
    simp only [splitTwo, if_pos hcond] at hp
    rcases List.mem_cons.mp hp with rfl | hp2
    · simp at hc
    · exact List.mem_cons_of_mem _ (List.mem_cons_of_mem _ (ih p hp2 c hc))
  | case4 a b rest hcond hnil ih =>
    exact absurd hnil (splitTwo_ne_nil _)
  | case5 a b rest hcond p0 ps hs ih =>
    intro p hp c hc
    simp only [splitTwo, if_neg hcond, hs] at hp
    rcases List.mem_cons.mp hp with rfl | hp2
    · rcases List.mem_cons.mp hc with rfl | hc2
      · exact List.mem_cons_self _ _
      · exact List.mem_cons_of_mem _
          (ih p0 (by rw [hs]; exact List.mem_cons_self _ _) c hc2)
    · exact List.mem_cons_of_mem _
        (ih p (by rw [hs]; exact List.mem_cons_of_mem _ hp2) c hc)

theorem splitLinesCore_ne_nil (cs : List Char) : splitLinesCore cs ≠ [] := by
  cases cs with
  | nil => simp [splitLinesCore]
  | cons a t =>
    cases t with
    | nil =>
      simp only [splitLinesCore]
      split <;> simp
    | cons b rest =>
      simp only [splitLinesCore]
      split
      · simp
      · split
        · simp
        · split <;> simp

theorem splitLinesCore_mem_breakfree (cs : List Char) :
    ∀ p ∈ splitLinesCore cs, ∀ c ∈ p, isLineBreakChar c = false := by
  induction cs using splitLinesCore.induct with
  | case1 =>
    intro p hp c hc
    simp only [splitLinesCore, List.mem_singleton] at hp
    subst hp
    simp at hc
  | case2 ch hbr =>
    intro p hp c hc
    simp only [splitLinesCore, if_pos hbr, List.mem_cons,
      List.mem_singleton] at hp
    rcases hp with h | h
    · subst h
      simp at hc
    · rcases h with h2 | h2
      · subst h2
        simp at hc
      · simp at h2
  | case3 ch hbr =>
    intro p hp c hc
    simp only [splitLinesCore, if_neg hbr, List.mem_singleton] at hp
    subst hp
    rcases List.mem_singleton.mp hc with rfl
    cases hx : isLineBreakChar c with
    | false => rfl
    | true => exact absurd hx hbr
  | case4 a b rest hcond ih =>
    intro p hp c hc
    simp only [splitLinesCore, if_pos hcond] at hp
    rcases List.mem_cons.mp hp with rfl | hp2
    · simp at hc
    · exact ih p hp2 c hc
  | case5 a b rest hcond hbr ih =>
    intro p hp c hc
    simp only [splitLinesCore, if_neg hcond, if_pos hbr] at hp
    rcases List.mem_cons.mp hp with rfl | hp2
    · simp at hc
    · exact ih p hp2 c hc
  | case6 a b rest hcond hbr hnil ih =>
    exact absurd hnil (splitLinesCore_ne_nil _)
  | case7 a b rest hcond hbr p0 ps hs ih =>
    intro p hp c hc
    simp only [splitLinesCore, if_neg hcond, if_neg hbr, hs] at hp
    rcases List.mem_cons.mp hp with rfl | hp2
    · rcases List.mem_cons.mp hc with rfl | hc2
      · cases hx : isLineBreakChar c with
        | false => rfl
        | true => exact absurd hx hbr
      · exact ih p0 (by rw [hs]; exact List.mem_cons_self _ _) c hc2
    · exact ih p (by rw [hs]; exact List.mem_cons_of_mem _ hp2) c hc

theorem core_breakfree_id (l : List Char) :
    (∀ c ∈ l, isLineBreakChar c = false) → splitLinesCore l = [l] := by
  induction l using splitLinesCore.induct with
  | case1 => intro _; rfl
  | case2 ch hbr =>
    intro hbf
    exact absurd (hbf ch (List.mem_singleton.mpr rfl)) (by simp [hbr])
  | case3 ch hbr =>
    intro _
    simp only [splitLinesCore, if_neg hbr]
  | case4 a b rest hcond ih =>
    intro hbf
    rcases Bool.and_eq_true_iff.mp hcond with ⟨h1, -⟩
    have ha : a = '\r' := beq_iff_eq.mp h1
    have := hbf a (List.mem_cons_self _ _)
    rw [ha] at this
    exact absurd this (by decide)
  | case5 a b rest hcond hbr ih =>
    intro hbf
    exact absurd (hbf a (List.mem_cons_self _ _)) (by simp [hbr])
  | case6 a b rest hcond hbr hnil ih =>
    exact absurd hnil (splitLinesCore_ne_nil _)
  | case7 a b rest hcond hbr p0 ps hs ih =>
    intro hbf
    have hone := ih (fun c hc => hbf c (List.mem_cons_of_mem _ hc))
    rw [hs] at hone
    injection hone with e1 e2
    subst e1
    subst e2
    simp only [splitLinesCore, if_neg hcond, if_neg hbr, hs]

theorem core_append_newline (l : List Char) (t : List Char)
    (hbf : ∀ c ∈ l, isLineBreakChar c = false) :
    splitLinesCore (l ++ '\n' :: t) = l :: splitLinesCore t := by
  induction l with
  | nil =>
    cases t with
    | nil => rfl
    | cons u t' =>
      show splitLinesCore ('\n' :: u :: t') = [] :: splitLinesCore (u :: t')
      have hx : (('\n' : Char) == '\r') = false := rfl
      simp only [splitLinesCore, hx, Bool.false_and, Bool.false_eq_true,
        if_false]
      rw [if_pos (show isLineBreakChar '\n' = true from rfl)]
  | cons c l' ih =>
    have hc : isLineBreakChar c = false := hbf c (List.mem_cons_self _ _)
    have hcr : (c == '\r') = false := by
      cases hx : c == '\r' with
      | false => rfl
      | true =>
        have he : c = '\r' := beq_iff_eq.mp hx
        rw [he] at hc
        exact absurd hc (by decide)
    have ihl : splitLinesCore (l' ++ '\n' :: t) = l' :: splitLinesCore t :=
      ih (fun d hd => hbf d (List.mem_cons_of_mem _ hd))
    cases l' with
    | nil =>
      show splitLinesCore (c :: '\n' :: t) = [c] :: splitLinesCore t
      simp only [List.nil_append] at ihl
      simp only [splitLinesCore, hcr, Bool.false_and, Bool.false_eq_true,
        if_false, hc, ihl]
    | cons d l'' =>
      show splitLinesCore (c :: d :: (l'' ++ '\n' :: t)) =
        (c :: d :: l'') :: splitLinesCore t
      simp only [List.cons_append] at ihl
      simp only [splitLinesCore, hcr, Bool.false_and, Bool.false_eq_true,
        if_false, hc, ihl]

theorem intercalate_cons_ne (s : List Char) (x : List Char)
    (L : List (List Char)) (h : L ≠ []) :
    List.intercalate s (x :: L) = x ++ s ++ List.intercalate s L := by
  cases L with
  | nil => exact absurd rfl h
  | cons y L' => simp [List.intercalate, List.intersperse_cons_cons]

theorem core_intercalate (L : List (List Char)) (hne : L ≠ [])
    (hbf : ∀ p ∈ L, ∀ c ∈ p, isLineBreakChar c = false) :
    splitLinesCore (List.intercalate ['\n'] L) = L := by
  induction L with
  | nil => exact absurd rfl hne
  | cons p L' ih =>
    cases L' with
    | nil =>
      rw [show List.intercalate ['\n'] [p] = p from by simp [List.intercalate]]
      exact core_breakfree_id p (hbf p (List.mem_cons_self _ _))
    | cons q L'' =>
      rw [intercalate_cons_ne _ _ _ (by simp)]
      rw [show p ++ ['\n'] ++ List.intercalate ['\n'] (q :: L'') =
        p ++ '\n' :: List.intercalate ['\n'] (q :: L'') from by simp]
      rw [core_append_newline p _ (hbf p (List.mem_cons_self _ _))]
      rw [ih (by simp) (fun r hr c hc => hbf r (List.mem_cons_of_mem _ hr) c hc)]

theorem pySplitlines_intercalate (L : List (List Char))
    (h1 : ∀ p ∈ L, p ≠ [])
    (hbf : ∀ p ∈ L, ∀ c ∈ p, isLineBreakChar c = false) :
    pySplitlines (List.intercalate ['\n'] L) = L := by
  cases L with
  | nil => rfl
  | cons p L' =>
    unfold pySplitlines
    rw [core_intercalate (p :: L') (by simp) hbf]
    rw [if_neg (fun heq => h1 [] (mem_of_getLast?_eq heq) rfl)]

theorem pySplitlines_mem_core (cs : List Char) (p : List Char)
    (h : p ∈ pySplitlines cs) : p ∈ splitLinesCore cs := by
  simp only [pySplitlines] at h
  split at h
  · exact (List.dropLast_sublist _).mem h
  · exact h

theorem map_self_of {α : Type} (l : List α) (f : α → α)
    (h : ∀ x ∈ l, f x = x) : l.map f = l := by
  induction l with
  | nil => rfl
  | cons a t ih =>
    simp only [List.map_cons, h a (List.mem_cons_self _ _),
      ih (fun x hx => h x (List.mem_cons_of_mem _ hx))]

theorem flatMap_singleton_of {α : Type} (l : List α) (f : α → List α)
    (h : ∀ x ∈ l, f x = [x]) : l.flatMap f = l := by
  induction l with
  | nil => rfl
  | cons a t ih =>
    rw [List.flatMap_cons, h a (List.mem_cons_self _ _),
      ih (fun x hx => h x (List.mem_cons_of_mem _ hx))]
    rfl

/-- Every chunk `cleanText` keeps is non-empty, strip-fixed, free of line
boundaries, and free of double spaces. -/
theorem cleanText_chunk_props (cs : List Char) :
    ∀ p ∈ (((pySplitlines cs).map pyStrip).flatMap
        (fun line => (splitTwo line).map pyStrip)).filter
        (fun c => !c.isEmpty),
      p ≠ [] ∧ pyStrip p = p ∧ (∀ c ∈ p, isLineBreakChar c = false) ∧
      noDoubleSpace p = true := by
  intro p hp
  rw [List.mem_filter] at hp
  obtain ⟨hmem, hne⟩ := hp
  rw [List.mem_flatMap] at hmem
  obtain ⟨line, hline, hpm⟩ := hmem
  rw [List.mem_map] at hpm
  obtain ⟨piece, hpiece, rfl⟩ := hpm
  rw [List.mem_map] at hline
  obtain ⟨raw, hraw, rfl⟩ := hline
  refine ⟨?_, pyStrip_idem piece, ?_, ?_⟩
  · intro hc
    rw [hc] at hne
    simp at hne
  · intro c hc
    have hm1 : c ∈ piece := mem_pyStrip piece c hc
    have hm2 : c ∈ pyStrip raw := splitTwo_mem_subset (pyStrip raw) piece hpiece c hm1
    have hm3 : c ∈ raw := mem_pyStrip raw c hm2
    exact splitLinesCore_mem_breakfree cs raw (pySplitlines_mem_core cs raw hraw) c hm3
  · exact noDS_pyStrip piece (splitTwo_mem_noDS (pyStrip raw) piece hpiece)

/-- Fact: `cleanText` leaves any newline-joined list of non-empty, strip-fixed,
boundary-free, double-space-free chunks unchanged. -/
theorem cleanText_fixed_of (K : List (List Char))
    (h1 : ∀ p ∈ K, p ≠ [])
    (h2 : ∀ p ∈ K, pyStrip p = p)
    (h3 : ∀ p ∈ K, ∀ c ∈ p, isLineBreakChar c = false)
    (h4 : ∀ p ∈ K, noDoubleSpace p = true) :
    cleanText (List.intercalate ['\n'] K) = List.intercalate ['\n'] K := by
  simp only [cleanText]
  rw [pySplitlines_intercalate K h1 h3]
  rw [map_self_of K pyStrip h2]
  rw [flatMap_singleton_of K _ (fun p hp => by
    rw [splitTwo_eq_of_noDS p (h4 p hp)]
    simp [h2 p hp])]
  rw [List.filter_eq_self.mpr (fun p hp => by
    have hx : p.isEmpty = false := by
      cases hx2 : p.isEmpty with
      | false => rfl
      | true => exact absurd (List.isEmpty_iff.mp hx2) (h1 p hp)
    simp [hx])]

/-- Idempotence of the cleanup stage of `extract_text`. -/
theorem cleanText_idem (cs : List Char) :
    cleanText (cleanText cs) = cleanText cs := by
  have hK := cleanText_chunk_props cs
  have hdef : cleanText cs = List.intercalate ['\n']
      ((((pySplitlines cs).map pyStrip).flatMap
        (fun line => (splitTwo line).map pyStrip)).filter
        (fun c => !c.isEmpty)) := rfl
  rw [hdef]
  exact cleanText_fixed_of _ (fun p hp => (hK p hp).1) (fun p hp => (hK p hp).2.1)
    (fun p hp => (hK p hp).2.2.1) (fun p hp => (hK p hp).2.2.2)

/-- C8: `extract_text` is idempotent on already-clean text: for every html
input, applying `extract_text` to `extract_text(html)` yields
`extract_text(html)` again.  The html parser (BeautifulSoup's `get_text`,
an external collaborator) enters as the oracle `soup`; the hypothesis states
that on the already-clean plain text it returns its input unchanged, and the
theorem shows the in-repo cleanup stage then reproduces the same string. -/
theorem extract_text_idempotent (soup : String → String) (html : String)
    (hplain : soup (extract_text soup html) = extract_text soup html) :
    extract_text soup (extract_text soup html) = extract_text soup html := by
  show String.mk (cleanText (soup (extract_text soup html)).data) =
    extract_text soup html
  rw [hplain]
  show String.mk (cleanText (cleanText (soup html).data)) =
    extract_text soup html
  rw [cleanText_idem]
  rfl

theorem extract_text_idempotent_witness :
    soupId (extract_text soupId "Hello\nWorld") =
      extract_text soupId "Hello\nWorld" ∧
    extract_text soupId (extract_text soupId "Hello\nWorld") =
      extract_text soupId "Hello\nWorld" :=
  ⟨rfl, extract_text_idempotent soupId "Hello\nWorld" rfl⟩
